import Mathlib

/-! # linksChecker: a verification development

A shallow embedding of `main.go` (package `main` of the links checker) and
theorems about it.

* Go strings are modelled by Lean `String`s, `fmt.Sprintf("%s…", url)` by `++`.
* The network is a parameter `get : String → Outcome`: what `http.Get` answers
  for a URL.  An answer is either a transport error or a response with a status
  code and a body; the body is represented by what `goquery` makes of it, that
  is either a parse error or the anchor elements of the document, in document
  order, each with its optional `href` attribute.
* The sequential functions (`ValidateUrl`, `IsReachable`, `ExtractLinks`) are
  Lean functions.  `IsReachable` returns its boolean result together with the
  list of messages it sends on the channel.
* The goroutines of `main` are modelled by an executable interleaving
  semantics: `step get s a` lets the goroutine chosen by the action `a` take
  one step from state `s`, and `exec` runs a whole schedule.  A step is one
  statement that touches the shared state (the `WaitGroup`, the channel) or one
  call of a sequential function; `wg.Add(1)` and the `go` statement that follows
  it are one step, since a launched goroutine may wait arbitrarily long before
  its own first step.  The channel is unbuffered: a send is a rendezvous with
  the receive of `main`.  Panics of the runtime (a send on a closed channel, a
  second `close`, a negative counter) are steps to a state with `panicked`.
* The console is not modelled: the messages `main` prints are those it receives
  from the channel (`State.stream`), and the error a site goroutine prints when
  its extraction fails leaves no trace in the state.
-/

namespace LinksChecker

/-! ## The transport -/

/-- An anchor element of a parsed document: `element.Attr("href")` answers
`(link, true)` for `some link` and `("", false)` for `none`. -/
structure Anchor where
  href : Option String
  deriving Repr, DecidableEq

/-- What `http.Get(url)` answers: `err != nil`, or a response with its status
code and, for its body, what `goquery.NewDocumentFromResponse` makes of it: an
error, or the document, represented by its anchor elements in document order
(the selection `document.Find("a")`). -/
inductive Outcome where
  | transportError (err : String)
  | response (status : Nat) (body : Except String (List Anchor))

/-- The constant `http.StatusOK`. -/
def StatusOK : Nat := 200

/-! ## The sequential functions -/

/-- The library function `strings.HasPrefix`. -/
def HasPrefix (s pre : String) : Bool := pre.data.isPrefixOf s.data

/-- The function `ValidateUrl` of `main.go`. -/
def ValidateUrl (url : String) : String :=
  if !HasPrefix url "https://" && !HasPrefix url "http://" then
    "https://" ++ url
  else
    url

/-- The function `IsReachable` of `main.go`: the boolean it returns and the messages it sends
on `ch`, in order.  (Its deferred `wg.Done()` is a step of the coordinator's
semantics, see `step`.) -/
def IsReachable (get : String → Outcome) (url : String) : Bool × List String :=
  match get url with
  | .transportError _ => (false, [url ++ " is not reachable "])
  | .response status _ =>
    if status = StatusOK then
      (true, [url ++ " is reachable."])
    else
      (false, [url ++ " is not reachable."])

/-- The callback of `document.Find("a").Each(…)` in `ExtractLinks`: append the
`href` of the element to `links` if it exists. -/
def collectHref (links : List String) (element : Anchor) : List String :=
  match element.href with
  | some link => links ++ [link]
  | none => links

/-- The function `ExtractLinks` of `main.go`.  The Go function returns `([]string, error)`:
the first component is `none` for the `nil` slice, the second is `none` for the
`nil` error and `some text` for an error whose `Error()` is `text`. -/
def ExtractLinks (get : String → Outcome) (url : String) :
    Option (List String) × Option String :=
  let url := ValidateUrl url
  match get url with
  | .transportError err => (none, some err)
  | .response status body =>
    if status ≠ StatusOK then
      (none, some (url ++ " url is not reachable.\n"))
    else
      match body with
      | .error err => (none, some err)
      | .ok anchors => (some (anchors.foldl collectHref []), none)

/-! ## The coordinator: goroutines of `main` -/

/-- Where a site goroutine (the `go func(name, url string)` of `main`) stands. -/
inductive SitePc where
  /-- about to call `ExtractLinks(url)` -/
  | extract
  /-- in `for _, link := range links`, with these links still to visit -/
  | spawn (rest : List String)
  /-- returning: the deferred `wg.Done()` is still to run -/
  | exit
  /-- finished, `wg.Done()` has run -/
  | done
  deriving Repr, DecidableEq

/-- A site goroutine: its two parameters and where it stands. -/
structure SiteUnit where
  name : String
  url : String
  pc : SitePc
  deriving Repr, DecidableEq

/-- Where a goroutine running `IsReachable` stands. -/
inductive CheckPc where
  /-- about to call `http.Get(url)` -/
  | start
  /-- the GET is answered; these messages are still to be sent on `ch`, then
  the function returns and the deferred `wg.Done()` runs -/
  | send (msgs : List String)
  /-- finished, `wg.Done()` has run -/
  | done
  deriving Repr, DecidableEq

/-- A goroutine `go IsReachable(fullURL, &wg, ch)`.  `parent` is a ghost field:
the index in `State.sites` of the site goroutine that launched it. -/
structure CheckUnit where
  parent : Nat
  url : String
  pc : CheckPc
  deriving Repr, DecidableEq

/-- Where the main goroutine stands (after `ParseConfig` succeeded). -/
inductive MainPc where
  /-- in `for siteName, siteInfo := range sites.Sites`, with these sites still
  to visit -/
  | spawning (rest : List (String × String))
  /-- in `for msg := range ch` -/
  | draining
  /-- the function `main` returned -/
  | finished
  deriving Repr, DecidableEq

/-- Where the goroutine `go func() { wg.Wait(); close(ch) }()` stands. -/
inductive WaiterPc where
  /-- not launched yet -/
  | idle
  /-- blocked in `wg.Wait()` -/
  | waiting
  /-- the call `wg.Wait()` returned, `close(ch)` is still to run -/
  | woken
  /-- finished, `close(ch)` has run -/
  | done
  deriving Repr, DecidableEq

/-- A state of the program: the goroutines, the counter of the `WaitGroup`, the
channel (`closed`, and `stream`: the messages that went through it so far, in
order; the channel is unbuffered, so these are the messages `main` received
and printed), and whether the program has panicked. -/
structure State where
  main : MainPc
  waiter : WaiterPc
  sites : List SiteUnit
  checks : List CheckUnit
  counter : Nat
  closed : Bool
  stream : List String
  panicked : Bool
  deriving Repr, DecidableEq

/-- The state in which `main` enters its first loop; `cfg` lists the entries of
`sites.Sites` (name and URL) in the order in which `range` visits them. -/
def init (cfg : List (String × String)) : State :=
  { main := .spawning cfg, waiter := .idle, sites := [], checks := [],
    counter := 0, closed := false, stream := [], panicked := false }

/-- The call `wg.Done()`: it decrements the counter, and panics ("negative
WaitGroup counter") when the counter is already zero. -/
def wgDone (s : State) : State :=
  if s.counter = 0 then { s with panicked := true }
  else { s with counter := s.counter - 1 }

/-- Which goroutine takes the next step. -/
inductive Action where
  | main
  | waiter
  | site (i : Nat)
  | check (i : Nat)
  deriving Repr, DecidableEq

/-- One step of the main goroutine. -/
def stepMain (s : State) : Option State :=
  match s.main with
  | .spawning ((name, url) :: rest) =>
    -- `wg.Add(1)` and `go func(name, url string) {…}(siteName, siteInfo.URL)`
    some { s with main := .spawning rest, counter := s.counter + 1,
                  sites := s.sites ++ [{ name := name, url := url, pc := .extract }] }
  | .spawning [] =>
    -- `go func() { wg.Wait(); close(ch) }()`
    some { s with main := .draining, waiter := .waiting }
  | .draining =>
    -- `for msg := range ch` ends once the channel is closed; a receive itself
    -- is one half of the rendezvous in `stepCheck`
    if s.closed then some { s with main := .finished } else none
  | .finished => none

/-- One step of the goroutine that waits and closes. -/
def stepWaiter (s : State) : Option State :=
  match s.waiter with
  | .idle => none
  | .waiting =>
    -- `wg.Wait()` returns only when the counter is zero
    if s.counter = 0 then some { s with waiter := .woken } else none
  | .woken =>
    -- `close(ch)`; closing a closed channel panics
    if s.closed then some { s with panicked := true }
    else some { s with waiter := .done, closed := true }
  | .done => none

/-- One step of the site goroutine number `i`. -/
def stepSite (get : String → Outcome) (s : State) (i : Nat) : Option State :=
  match s.sites[i]? with
  | none => none
  | some u =>
    match u.pc with
    | .extract =>
      match ExtractLinks get u.url with
      | (_, some _) =>
        -- `err != nil`: the error is printed on the console (not modelled) and
        -- the function returns
        some { s with sites := s.sites.set i { u with pc := .exit } }
      | (links, none) =>
        some { s with sites := s.sites.set i { u with pc := .spawn (links.getD []) } }
    | .spawn (link :: rest) =>
      -- `fullURL := ValidateUrl(link)`, `wg.Add(1)`, `go IsReachable(fullURL, &wg, ch)`
      some { s with sites := s.sites.set i { u with pc := .spawn rest },
                    counter := s.counter + 1,
                    checks := s.checks ++ [{ parent := i, url := ValidateUrl link, pc := .start }] }
    | .spawn [] =>
      some { s with sites := s.sites.set i { u with pc := .exit } }
    | .exit =>
      -- the deferred `wg.Done()`
      some (wgDone { s with sites := s.sites.set i { u with pc := .done } })
    | .done => none

/-- One step of the `IsReachable` goroutine number `i`. -/
def stepCheck (get : String → Outcome) (s : State) (i : Nat) : Option State :=
  match s.checks[i]? with
  | none => none
  | some c =>
    match c.pc with
    | .start =>
      -- `http.Get(url)` answers; what is sent afterwards is given by `IsReachable`
      some { s with checks := s.checks.set i { c with pc := .send (IsReachable get c.url).2 } }
    | .send (msg :: rest) =>
      -- `ch <- msg`: panics on a closed channel, and otherwise blocks until
      -- `main` receives in `for msg := range ch`
      if s.closed then some { s with panicked := true }
      else
        match s.main with
        | .draining =>
          some { s with checks := s.checks.set i { c with pc := .send rest },
                        stream := s.stream ++ [msg] }
        | _ => none
    | .send [] =>
      -- the deferred `wg.Done()`
      some (wgDone { s with checks := s.checks.set i { c with pc := .done } })
    | .done => none

/-- One step of the program: the goroutine chosen by the action moves, if it
can (`none`: it is blocked, finished or absent).  After a panic nothing moves. -/
def step (get : String → Outcome) (s : State) (a : Action) : Option State :=
  if s.panicked then none
  else
    match a with
    | .main => stepMain s
    | .waiter => stepWaiter s
    | .site i => stepSite get s i
    | .check i => stepCheck get s i

/-- Run a schedule: the actions are taken one after the other; `none` when one
of them is not enabled. -/
def exec (get : String → Outcome) (s : State) : List Action → Option State
  | [] => some s
  | a :: as =>
    match step get s a with
    | none => none
    | some s' => exec get s' as

/-- The states of the runs of the program on configuration `cfg`. -/
def Reachable (get : String → Outcome) (cfg : List (String × String)) (s : State) : Prop :=
  ∃ acts, exec get (init cfg) acts = some s

/-! ## The step relation -/

/-- The steps of the program as a relation, one constructor per branch of
`step` (see `Step_of_step`). -/
inductive Step (get : String → Outcome) : State → State → Prop where
  | mainSpawn (s : State) (name url : String) (rest : List (String × String))
      (hp : s.panicked = false) (hm : s.main = .spawning ((name, url) :: rest)) :
      Step get s { s with main := .spawning rest, counter := s.counter + 1,
                          sites := s.sites ++ [{ name := name, url := url, pc := .extract }] }
  | mainLaunch (s : State) (hp : s.panicked = false) (hm : s.main = .spawning []) :
      Step get s { s with main := .draining, waiter := .waiting }
  | mainFinish (s : State) (hp : s.panicked = false) (hm : s.main = .draining)
      (hc : s.closed = true) :
      Step get s { s with main := .finished }
  | waiterWake (s : State) (hp : s.panicked = false) (hw : s.waiter = .waiting)
      (h0 : s.counter = 0) :
      Step get s { s with waiter := .woken }
  | waiterPanic (s : State) (hp : s.panicked = false) (hw : s.waiter = .woken)
      (hc : s.closed = true) :
      Step get s { s with panicked := true }
  | waiterClose (s : State) (hp : s.panicked = false) (hw : s.waiter = .woken)
      (hc : s.closed = false) :
      Step get s { s with waiter := .done, closed := true }
  | siteFail (s : State) (i : Nat) (u : SiteUnit) (links : Option (List String)) (e : String)
      (hp : s.panicked = false) (hu : s.sites[i]? = some u) (hpc : u.pc = .extract)
      (he : ExtractLinks get u.url = (links, some e)) :
      Step get s { s with sites := s.sites.set i { u with pc := .exit } }
  | siteLinks (s : State) (i : Nat) (u : SiteUnit) (links : Option (List String))
      (hp : s.panicked = false) (hu : s.sites[i]? = some u) (hpc : u.pc = .extract)
      (he : ExtractLinks get u.url = (links, none)) :
      Step get s { s with sites := s.sites.set i { u with pc := .spawn (links.getD []) } }
  | siteSpawn (s : State) (i : Nat) (u : SiteUnit) (link : String) (rest : List String)
      (hp : s.panicked = false) (hu : s.sites[i]? = some u)
      (hpc : u.pc = .spawn (link :: rest)) :
      Step get s { s with sites := s.sites.set i { u with pc := .spawn rest },
                          counter := s.counter + 1,
                          checks := s.checks ++
                            [{ parent := i, url := ValidateUrl link, pc := .start }] }
  | siteLoopEnd (s : State) (i : Nat) (u : SiteUnit)
      (hp : s.panicked = false) (hu : s.sites[i]? = some u) (hpc : u.pc = .spawn []) :
      Step get s { s with sites := s.sites.set i { u with pc := .exit } }
  | siteDone (s : State) (i : Nat) (u : SiteUnit)
      (hp : s.panicked = false) (hu : s.sites[i]? = some u) (hpc : u.pc = .exit) :
      Step get s (wgDone { s with sites := s.sites.set i { u with pc := .done } })
  | checkGet (s : State) (i : Nat) (c : CheckUnit)
      (hp : s.panicked = false) (hu : s.checks[i]? = some c) (hpc : c.pc = .start) :
      Step get s { s with checks := s.checks.set i { c with pc := .send (IsReachable get c.url).2 } }
  | checkPanic (s : State) (i : Nat) (c : CheckUnit) (msg : String) (rest : List String)
      (hp : s.panicked = false) (hu : s.checks[i]? = some c)
      (hpc : c.pc = .send (msg :: rest)) (hc : s.closed = true) :
      Step get s { s with panicked := true }
  | checkSend (s : State) (i : Nat) (c : CheckUnit) (msg : String) (rest : List String)
      (hp : s.panicked = false) (hu : s.checks[i]? = some c)
      (hpc : c.pc = .send (msg :: rest)) (hc : s.closed = false) (hm : s.main = .draining) :
      Step get s { s with checks := s.checks.set i { c with pc := .send rest },
                          stream := s.stream ++ [msg] }
  | checkDone (s : State) (i : Nat) (c : CheckUnit)
      (hp : s.panicked = false) (hu : s.checks[i]? = some c) (hpc : c.pc = .send []) :
      Step get s (wgDone { s with checks := s.checks.set i { c with pc := .done } })

/-! ## What the specification speaks of -/

/-- The links of a site: those `ExtractLinks` returns, none when it returns an
error. -/
def linksOf (get : String → Outcome) (url : String) : List String :=
  match ExtractLinks get url with
  | (_, some _) => []
  | (links, none) => links.getD []

/-- The messages the checks of a list of extracted links send: for every link,
what `IsReachable` sends for `ValidateUrl(link)`. -/
def linkMessages (get : String → Outcome) (links : List String) : List String :=
  links.flatMap (fun link => (IsReachable get (ValidateUrl link)).2)

/-- The messages expected from one site: those of the links `ExtractLinks`
returns for it, none when `ExtractLinks` returns an error. -/
def siteMessages (get : String → Outcome) (url : String) : List String :=
  linkMessages get (linksOf get url)

/-- The messages expected from a configuration. -/
def expectedMessages (get : String → Outcome) (cfg : List (String × String)) : List String :=
  cfg.flatMap (fun site => siteMessages get site.2)

/-- The library function `strings.HasSuffix`. -/
def HasSuffix (s suf : String) : Bool := suf.data.isSuffixOf s.data

/-- The last character of a string, if it has one. -/
def lastChar (s : String) : Option Char := s.data.getLast?

/-- The three kinds of outcome `IsReachable` tells apart. -/
inductive Kind where
  | reachable
  | badStatus
  | transportFailure
  deriving Repr, DecidableEq

/-- The kind of an answer of the transport. -/
def kindOf : Outcome → Kind
  | .transportError _ => .transportFailure
  | .response status _ => if status = StatusOK then .reachable else .badStatus

/-- Whether a site goroutine is registered and has not signalled completion
(1) or has (0). -/
def activeSite (u : SiteUnit) : Nat :=
  match u.pc with
  | .done => 0
  | _ => 1

/-- Whether a check goroutine is registered and has not signalled completion
(1) or has (0). -/
def activeCheck (c : CheckUnit) : Nat :=
  match c.pc with
  | .done => 0
  | _ => 1

/-- The number of registered units of work (site goroutines and checks) that
have not yet signalled completion with `wg.Done()`. -/
def active (s : State) : Nat :=
  (s.sites.map activeSite).sum + (s.checks.map activeCheck).sum

/-- The sites `main` has still to visit in its first loop. -/
def mainRest : MainPc → List (String × String)
  | .spawning rest => rest
  | .draining => []
  | .finished => []

/-- The links for which a site goroutine has still to launch a check. -/
def toSpawn (get : String → Outcome) : Option SiteUnit → List String
  | none => []
  | some u =>
    match u.pc with
    | .extract => linksOf get u.url
    | .spawn rest => rest
    | .exit => []
    | .done => []

/-- All the links of a site goroutine. -/
def allLinks (get : String → Outcome) : Option SiteUnit → List String
  | none => []
  | some u => linksOf get u.url

/-- The URLs of the checks launched so far by the site goroutine number `i`, in
the order of their launch. -/
def spawnedBy (checks : List CheckUnit) (i : Nat) : List String :=
  ((checks.map (fun c => (c.parent, c.url))).filter (fun t => t.1 = i)).map (fun t => t.2)

/-- The messages a check goroutine has still to send. -/
def pendingCheck (get : String → Outcome) (c : CheckUnit) : List String :=
  match c.pc with
  | .start => (IsReachable get c.url).2
  | .send msgs => msgs
  | .done => []

/-- The messages of the checks a site goroutine has still to launch. -/
def pendingSite (get : String → Outcome) (u : SiteUnit) : List String :=
  match u.pc with
  | .extract => linkMessages get (linksOf get u.url)
  | .spawn rest => linkMessages get rest
  | .exit => []
  | .done => []

/-- The messages of a whole run, seen from a state: those already on the
stream and those still to come. -/
def pending (get : String → Outcome) (s : State) : Multiset String :=
  (s.stream : Multiset String)
    + (s.checks.map (fun c => (pendingCheck get c : Multiset String))).sum
    + (s.sites.map (fun u => (pendingSite get u : Multiset String))).sum
    + (expectedMessages get (mainRest s.main) : Multiset String)

/-- The invariant of the runs on configuration `cfg`. -/
structure Inv (get : String → Outcome) (cfg : List (String × String)) (s : State) : Prop where
  notPanicked : s.panicked = false
  counter_eq : s.counter = active s
  waiter_idle : s.waiter = .idle ↔ ∃ rest, s.main = .spawning rest
  woken_zero : s.waiter = .woken ∨ s.waiter = .done → s.counter = 0
  closed_iff : s.closed = true ↔ s.waiter = .done
  finished_closed : s.main = .finished → s.closed = true
  sites_cfg : s.sites.map (fun u => (u.name, u.url)) ++ mainRest s.main = cfg
  messages : pending get s = (expectedMessages get cfg : Multiset String)
  spawned : ∀ i, (spawnedBy s.checks i ++ (toSpawn get s.sites[i]?).map ValidateUrl
      = (allLinks get s.sites[i]?).map ValidateUrl)

/-! ## A termination measure -/

/-- Steps left to a check goroutine that has not started. -/
def wCheckStart (get : String → Outcome) (url : String) : Nat :=
  2 + (IsReachable get url).2.length

/-- Steps left to a check goroutine. -/
def wCheck (get : String → Outcome) (c : CheckUnit) : Nat :=
  match c.pc with
  | .start => wCheckStart get c.url
  | .send msgs => 1 + msgs.length
  | .done => 0

/-- Steps caused by the links a site goroutine has still to visit. -/
def wLinks (get : String → Outcome) (links : List String) : Nat :=
  (links.map (fun link => 1 + wCheckStart get (ValidateUrl link))).sum

/-- Steps left to a site goroutine and the checks it will launch. -/
def wSite (get : String → Outcome) (u : SiteUnit) : Nat :=
  match u.pc with
  | .extract => 3 + wLinks get (linksOf get u.url)
  | .spawn rest => 2 + wLinks get rest
  | .exit => 1
  | .done => 0

/-- Steps left to `main` and the site goroutines it will launch. -/
def wMain (get : String → Outcome) : MainPc → Nat
  | .spawning rest => 2 + (rest.map (fun site => 4 + wLinks get (linksOf get site.2))).sum
  | .draining => 1
  | .finished => 0

/-- Steps left to the goroutine that waits and closes. -/
def wWaiter : WaiterPc → Nat
  | .idle => 2
  | .waiting => 2
  | .woken => 1
  | .done => 0

/-- A bound on the number of steps left to the program. -/
def weight (get : String → Outcome) (s : State) : Nat :=
  wMain get s.main + wWaiter s.waiter + (s.sites.map (wSite get)).sum
    + (s.checks.map (wCheck get)).sum + (if s.panicked then 0 else 1)

/-! ## Concrete scenarios -/

/-- The transport of the end-to-end scenario of the specification. -/
def scenarioGet (url : String) : Outcome :=
  if url = "https://hosta.test" then
    .response 200 (.ok [⟨some "hostb.test"⟩, ⟨some "/relative"⟩])
  else if url = "https://hostb.test" then .response 200 (.ok [])
  else if url = "https://hostc.test" then .response 200 (.ok [])
  else .transportError "no such host"

/-- The configuration of the end-to-end scenario. -/
def scenarioCfg : List (String × String) := [("a", "hosta.test"), ("b", "hostc.test")]

/-- The state the end-to-end scenario ends in, for one of its schedules. -/
def scenarioSchedule : List Action :=
  [.main, .main, .main, .site 0, .site 1, .site 1, .site 1, .site 0, .site 0, .site 0,
   .check 0, .check 1, .check 1, .check 0, .check 0, .check 1, .site 0, .waiter, .waiter, .main]

/-- The first steps of a run of the end-to-end scenario: `main` has launched both
sites and the waiting goroutine, the site "a" has extracted its two links and
launched the check of the first. -/
def scenarioPrefix : List Action := [.main, .main, .main, .site 0, .site 0]

/-- A transport for a site with five links, all of them reachable. -/
def fiveGet (url : String) : Outcome :=
  if url = "https://site.test" then
    .response 200 (.ok [⟨some "l1.test"⟩, ⟨some "l2.test"⟩, ⟨some "l3.test"⟩,
      ⟨some "l4.test"⟩, ⟨some "l5.test"⟩])
  else .response 200 (.ok [])

/-- A configuration with the five-link site only. -/
def fiveCfg : List (String × String) := [("s", "site.test")]

/-- A schedule of a run on the five-link site. -/
def fiveSchedule : List Action :=
  [.main, .main, .site 0, .site 0, .site 0, .site 0, .site 0, .site 0, .site 0, .site 0,
   .check 4, .check 3, .check 2, .check 1, .check 0,
   .check 2, .check 2, .check 0, .check 0, .check 4, .check 4, .check 1, .check 1,
   .check 3, .check 3, .waiter, .waiter, .main]

/-- A transport that answers 404 for the page "https://down.test" and 200 with
one anchor for every other URL. -/
def downGet (url : String) : Outcome :=
  if url = "https://down.test" then .response 404 (.ok [⟨some "x.test"⟩])
  else .response 200 (.ok [⟨some "y.test"⟩])

/-! ## Lemmas -/

theorem hasPrefix_of_append (p s : String) : HasPrefix (p ++ s) p = true := by
  simp [HasPrefix, String.data_append]

theorem ValidateUrl_eq_self (s : String)
    (h : HasPrefix s "http://" = true ∨ HasPrefix s "https://" = true) : ValidateUrl s = s := by
  unfold ValidateUrl
  rcases h with h | h <;> simp [h]

theorem ValidateUrl_eq_https (s : String)
    (h1 : HasPrefix s "http://" = false) (h2 : HasPrefix s "https://" = false) :
    ValidateUrl s = "https://" ++ s := by
  unfold ValidateUrl
  simp [h1, h2]

theorem ValidateUrl_scheme (s : String) :
    HasPrefix (ValidateUrl s) "http://" = true ∨ HasPrefix (ValidateUrl s) "https://" = true := by
  by_cases h1 : HasPrefix s "http://" = true
  · rw [ValidateUrl_eq_self s (Or.inl h1)]; exact Or.inl h1
  · by_cases h2 : HasPrefix s "https://" = true
    · rw [ValidateUrl_eq_self s (Or.inr h2)]; exact Or.inr h2
    · rw [ValidateUrl_eq_https s (by simpa using h1) (by simpa using h2)]
      exact Or.inr (hasPrefix_of_append _ _)

theorem foldl_collectHref (anchors : List Anchor) (acc : List String) :
    anchors.foldl collectHref acc = acc ++ anchors.filterMap (fun a => a.href) := by
  induction anchors generalizing acc with
  | nil => simp
  | cons a as ih =>
    rw [List.foldl_cons, ih]
    cases h : a.href <;> simp [collectHref, h, List.filterMap_cons]

theorem hasSuffix_reachable (u : String) : HasSuffix (u ++ " is reachable.") " is reachable." = true := by
  simp [HasSuffix, String.data_append]

theorem not_hasSuffix_badStatus (u : String) :
    HasSuffix (u ++ " is not reachable.") " is reachable." = false := by
  simp [HasSuffix, String.data_append, List.isSuffixOf, List.isPrefixOf]

theorem not_hasSuffix_transport (u : String) :
    HasSuffix (u ++ " is not reachable ") " is reachable." = false := by
  simp [HasSuffix, String.data_append, List.isSuffixOf, List.isPrefixOf]

theorem lastChar_badStatus (u : String) : lastChar (u ++ " is not reachable.") = some '.' := by
  simp [lastChar, String.data_append, List.getLast?_append]

theorem lastChar_reachable (u : String) : lastChar (u ++ " is reachable.") = some '.' := by
  simp [lastChar, String.data_append, List.getLast?_append]

theorem lastChar_transport (u : String) : lastChar (u ++ " is not reachable ") = some ' ' := by
  simp [lastChar, String.data_append, List.getLast?_append]

theorem Step_of_step (get : String → Outcome) (s s' : State) (a : Action)
    (h : step get s a = some s') : Step get s s' := by
  unfold step at h
  split at h
  · simp at h
  · rename_i hp
    simp only [Bool.not_eq_true] at hp
    cases a with
    | main =>
      simp only [stepMain] at h
      split at h
      · rename_i name url rest hm
        cases h
        exact Step.mainSpawn s name url rest hp hm
      · rename_i hm
        cases h
        exact Step.mainLaunch s hp hm
      · rename_i hm
        split at h
        · rename_i hc
          cases h
          exact Step.mainFinish s hp hm hc
        · simp at h
      · simp at h
    | waiter =>
      simp only [stepWaiter] at h
      split at h
      · simp at h
      · rename_i hw
        split at h
        · rename_i h0
          cases h
          exact Step.waiterWake s hp hw h0
        · simp at h
      · rename_i hw
        split at h
        · rename_i hc
          cases h
          exact Step.waiterPanic s hp hw hc
        · rename_i hc
          cases h
          exact Step.waiterClose s hp hw (by simpa using hc)
      · simp at h
    | site i =>
      simp only [stepSite] at h
      split at h
      · simp at h
      · rename_i u hu
        split at h
        · rename_i hpc
          split at h
          · rename_i links e he
            cases h
            exact Step.siteFail s i u links e hp hu hpc he
          · rename_i links he
            cases h
            exact Step.siteLinks s i u links hp hu hpc he
        · rename_i link rest hpc
          cases h
          exact Step.siteSpawn s i u link rest hp hu hpc
        · rename_i hpc
          cases h
          exact Step.siteLoopEnd s i u hp hu hpc
        · rename_i hpc
          cases h
          exact Step.siteDone s i u hp hu hpc
        · simp at h
    | check i =>
      simp only [stepCheck] at h
      split at h
      · simp at h
      · rename_i c hu
        split at h
        · rename_i hpc
          cases h
          exact Step.checkGet s i c hp hu hpc
        · rename_i msg rest hpc
          split at h
          · rename_i hc
            cases h
            exact Step.checkPanic s i c msg rest hp hu hpc hc
          · rename_i hc
            split at h
            · rename_i hm
              cases h
              exact Step.checkSend s i c msg rest hp hu hpc (by simpa using hc) hm
            · simp at h
        · rename_i hpc
          cases h
          exact Step.checkDone s i c hp hu hpc
        · simp at h

theorem sum_map_set {α M : Type} [AddCommMonoid M] (f : α → M) :
    ∀ (l : List α) (i : Nat) (u v : α), l[i]? = some u →
      ∃ r, (l.map f).sum = f u + r ∧ ((l.set i v).map f).sum = f v + r
  | [], i, u, v, h => by simp at h
  | a :: l, 0, u, v, h => by
    simp at h
    subst h
    exact ⟨(l.map f).sum, by simp, by simp⟩
  | a :: l, i + 1, u, v, h => by
    obtain ⟨r, h1, h2⟩ := sum_map_set f l i u v (by simpa using h)
    refine ⟨f a + r, ?_, ?_⟩
    · simp only [List.map_cons, List.sum_cons, h1, add_left_comm]
    · simp only [List.set_cons_succ, List.map_cons, List.sum_cons, h2, add_left_comm]

theorem exists_pos_of_sum_pos {α : Type} (f : α → Nat) :
    ∀ (l : List α), 0 < (l.map f).sum → ∃ (i : Nat) (u : α), l[i]? = some u ∧ 0 < f u
  | [], h => by simp at h
  | a :: l, h => by
    by_cases ha : 0 < f a
    · exact ⟨0, a, by simp, ha⟩
    · have : 0 < (l.map f).sum := by
        simp only [List.map_cons, List.sum_cons] at h
        omega
      obtain ⟨i, u, hu, hpos⟩ := exists_pos_of_sum_pos f l this
      exact ⟨i + 1, u, by simpa using hu, hpos⟩

theorem map_set_of_eq {α β : Type} (g : α → β) :
    ∀ (l : List α) (i : Nat) (u v : α), l[i]? = some u → g v = g u →
      (l.set i v).map g = l.map g
  | [], i, u, v, h, _ => by simp at h
  | a :: l, 0, u, v, h, hg => by
    simp at h
    subst h
    simp [hg]
  | a :: l, i + 1, u, v, h, hg => by
    have := map_set_of_eq g l i u v (by simpa using h) hg
    simp only [List.set_cons_succ, List.map_cons, this]

theorem getElem?_set_cases {α : Type} (l : List α) (i j : Nat) (u v : α)
    (h : l[i]? = some u) :
    (j = i ∧ (l.set i v)[j]? = some v) ∨ (j ≠ i ∧ (l.set i v)[j]? = l[j]?) := by
  by_cases hj : j = i
  · left
    subst hj
    refine ⟨rfl, ?_⟩
    obtain ⟨hlt, -⟩ := List.getElem?_eq_some.mp h
    simp [List.getElem?_set, hlt]
  · right
    refine ⟨hj, ?_⟩
    simp [List.getElem?_set, Ne.symm hj]

theorem Inv_init (get : String → Outcome) (cfg : List (String × String)) : Inv get cfg (init cfg) := by
  constructor <;> simp [init, active, mainRest, pending, spawnedBy, toSpawn, allLinks]

theorem wgDone_of_pos (s : State) (h : s.counter ≠ 0) :
    wgDone s = { s with counter := s.counter - 1 } := by
  simp [wgDone, h]

theorem active_site_pos (s : State) (i : Nat) (u : SiteUnit) (hu : s.sites[i]? = some u)
    (hpc : u.pc ≠ .done) : 0 < (s.sites.map activeSite).sum := by
  obtain ⟨r, h1, -⟩ := sum_map_set activeSite s.sites i u u hu
  rw [h1]
  have : activeSite u = 1 := by
    unfold activeSite
    split
    · contradiction
    · rfl
  omega

theorem active_check_pos (s : State) (i : Nat) (c : CheckUnit) (hu : s.checks[i]? = some c)
    (hpc : c.pc ≠ .done) : 0 < (s.checks.map activeCheck).sum := by
  obtain ⟨r, h1, -⟩ := sum_map_set activeCheck s.checks i c c hu
  rw [h1]
  have : activeCheck c = 1 := by
    unfold activeCheck
    split
    · contradiction
    · rfl
  omega

theorem step_notPanicked (get : String → Outcome) (cfg : List (String × String)) (s s' : State)
    (inv : Inv get cfg s) (h : Step get s s') : s'.panicked = false := by
  have hc := inv.counter_eq
  have hci := inv.closed_iff
  have hwz := inv.woken_zero
  cases h
  case siteDone i u hp hu hpc =>
    have := active_site_pos s i u hu (by simp [hpc])
    rw [wgDone_of_pos _ (by simp [active] at hc ⊢; omega)]
    simpa using hp
  case checkDone i c hp hu hpc =>
    have := active_check_pos s i c hu (by simp [hpc])
    rw [wgDone_of_pos _ (by simp [active] at hc ⊢; omega)]
    simpa using hp
  case waiterPanic hp hw hcl => 
    simp [hw] at hci
    simp [hci] at hcl
  case checkPanic i c msg rest hp hu hpc hcl =>
    have := active_check_pos s i c hu (by simp [hpc])
    have := hwz (Or.inr (hci.mp hcl))
    simp [active] at hc
    omega
  all_goals simpa using inv.notPanicked

theorem counter_ne_zero_of_site (get : String → Outcome) (cfg : List (String × String))
    (s : State) (inv : Inv get cfg s) (i : Nat) (u : SiteUnit) (hu : s.sites[i]? = some u)
    (hpc : u.pc ≠ .done) : s.counter ≠ 0 := by
  have := active_site_pos s i u hu hpc
  have hc := inv.counter_eq
  simp only [active] at hc
  omega

theorem counter_ne_zero_of_check (get : String → Outcome) (cfg : List (String × String))
    (s : State) (inv : Inv get cfg s) (i : Nat) (c : CheckUnit) (hu : s.checks[i]? = some c)
    (hpc : c.pc ≠ .done) : s.counter ≠ 0 := by
  have := active_check_pos s i c hu hpc
  have hc := inv.counter_eq
  simp only [active] at hc
  omega

theorem step_counter_eq (get : String → Outcome) (cfg : List (String × String)) (s s' : State)
    (inv : Inv get cfg s) (h : Step get s s') : s'.counter = active s' := by
  have hc := inv.counter_eq
  simp only [active] at hc
  cases h
  case mainSpawn name url rest hp hm =>
    simp [active, activeSite] at hc ⊢; omega
  case siteFail i u links e hp hu hpc he =>
    obtain ⟨r, h1, h2⟩ := sum_map_set activeSite s.sites i u { u with pc := .exit } hu
    dsimp only [active]
    rw [h2]; rw [h1] at hc
    simp [activeSite, hpc] at hc ⊢; omega
  case siteLinks i u links hp hu hpc he =>
    obtain ⟨r, h1, h2⟩ := sum_map_set activeSite s.sites i u { u with pc := .spawn (links.getD []) } hu
    dsimp only [active]
    rw [h2]; rw [h1] at hc
    simp [activeSite, hpc] at hc ⊢; omega
  case siteSpawn i u link rest hp hu hpc =>
    obtain ⟨r, h1, h2⟩ := sum_map_set activeSite s.sites i u { u with pc := .spawn rest } hu
    dsimp only [active]
    rw [h2]; rw [h1] at hc
    simp [activeSite, activeCheck, hpc] at hc ⊢; omega
  case siteLoopEnd i u hp hu hpc =>
    obtain ⟨r, h1, h2⟩ := sum_map_set activeSite s.sites i u { u with pc := .exit } hu
    dsimp only [active]
    rw [h2]; rw [h1] at hc
    simp [activeSite, hpc] at hc ⊢; omega
  case siteDone i u hp hu hpc =>
    have hne := counter_ne_zero_of_site get cfg s inv i u hu (by simp [hpc])
    obtain ⟨r, h1, h2⟩ := sum_map_set activeSite s.sites i u { u with pc := .done } hu
    simp only [wgDone, hne, if_false, active]
    rw [h2]; rw [h1] at hc
    simp [activeSite, hpc] at hc ⊢; omega
  case checkGet i c hp hu hpc =>
    obtain ⟨r, h1, h2⟩ := sum_map_set activeCheck s.checks i c
      { c with pc := .send (IsReachable get c.url).2 } hu
    dsimp only [active]
    rw [h2]; rw [h1] at hc
    simp [activeCheck, hpc] at hc ⊢; omega
  case checkSend i c msg rest hp hu hpc hcl hm =>
    obtain ⟨r, h1, h2⟩ := sum_map_set activeCheck s.checks i c { c with pc := .send rest } hu
    dsimp only [active]
    rw [h2]; rw [h1] at hc
    simp [activeCheck, hpc] at hc ⊢; omega
  case checkDone i c hp hu hpc =>
    have hne := counter_ne_zero_of_check get cfg s inv i c hu (by simp [hpc])
    obtain ⟨r, h1, h2⟩ := sum_map_set activeCheck s.checks i c { c with pc := .done } hu
    simp only [wgDone, hne, if_false, active]
    rw [h2]; rw [h1] at hc
    simp [activeCheck, hpc] at hc ⊢; omega
  all_goals simpa [active] using hc

theorem step_control (get : String → Outcome) (cfg : List (String × String)) (s s' : State)
    (inv : Inv get cfg s) (h : Step get s s') :
    (s'.waiter = .idle ↔ ∃ rest, s'.main = .spawning rest) ∧
    (s'.waiter = .woken ∨ s'.waiter = .done → s'.counter = 0) ∧
    (s'.closed = true ↔ s'.waiter = .done) ∧
    (s'.main = .finished → s'.closed = true) := by
  have hwi := inv.waiter_idle
  have hwz := inv.woken_zero
  have hci := inv.closed_iff
  have hfc := inv.finished_closed
  cases h
  case mainSpawn name url rest hp hm =>
    have hw : s.waiter = .idle := hwi.mpr ⟨_, hm⟩
    simp [hw] at hci ⊢
    exact hci
  case mainLaunch hp hm =>
    have hw : s.waiter = .idle := hwi.mpr ⟨_, hm⟩
    simp [hw] at hci ⊢
    exact hci
  case mainFinish hp hm hcl =>
    have hw : s.waiter = .done := hci.mp hcl
    simp [hw, hcl] at hwz ⊢
    exact hwz
  case waiterWake hp hw h0 =>
    simp [hw] at hwi hci ⊢
    refine ⟨fun rest hm => hwi rest hm, h0, hci, fun hm => ?_⟩
    have := hfc hm
    simp [hci] at this
  case waiterPanic hp hw hcl =>
    simp [hw] at hci
    simp [hci] at hcl
  case waiterClose hp hw hcl =>
    simp [hw] at hwi hwz ⊢
    exact ⟨fun rest hm => hwi rest hm, hwz⟩
  case siteSpawn i u link rest hp hu hpc =>
    refine ⟨hwi, fun hw => ?_, hci, hfc⟩
    exact absurd (hwz hw) (counter_ne_zero_of_site get cfg s inv i u hu (by simp [hpc]))
  case siteDone i u hp hu hpc =>
    have hne := counter_ne_zero_of_site get cfg s inv i u hu (by simp [hpc])
    simp only [wgDone, hne, if_false]
    refine ⟨hwi, fun hw => ?_, hci, hfc⟩
    exact absurd (hwz hw) hne
  case checkDone i c hp hu hpc =>
    have hne := counter_ne_zero_of_check get cfg s inv i c hu (by simp [hpc])
    simp only [wgDone, hne, if_false]
    refine ⟨hwi, fun hw => ?_, hci, hfc⟩
    exact absurd (hwz hw) hne
  case checkPanic i c msg rest hp hu hpc hcl =>
    exact absurd (hwz (Or.inr (hci.mp hcl)))
      (counter_ne_zero_of_check get cfg s inv i c hu (by simp [hpc]))
  all_goals exact ⟨hwi, hwz, hci, hfc⟩

theorem map_site_set_pc (sites : List SiteUnit) (i : Nat) (u : SiteUnit) (pc : SitePc)
    (hu : sites[i]? = some u) :
    (sites.set i { u with pc := pc }).map (fun u => (u.name, u.url))
      = sites.map (fun u => (u.name, u.url)) :=
  map_set_of_eq (fun u : SiteUnit => (u.name, u.url)) sites i u { u with pc := pc } hu rfl

theorem map_check_set_pc (checks : List CheckUnit) (i : Nat) (c : CheckUnit) (pc : CheckPc)
    (hu : checks[i]? = some c) :
    (checks.set i { c with pc := pc }).map (fun c => (c.parent, c.url))
      = checks.map (fun c => (c.parent, c.url)) :=
  map_set_of_eq (fun c : CheckUnit => (c.parent, c.url)) checks i c { c with pc := pc } hu rfl

theorem step_sites_cfg (get : String → Outcome) (cfg : List (String × String)) (s s' : State)
    (inv : Inv get cfg s) (h : Step get s s') :
    s'.sites.map (fun u => (u.name, u.url)) ++ mainRest s'.main = cfg := by
  have hsc := inv.sites_cfg
  cases h
  case mainSpawn name url rest hp hm =>
    simpa [hm, mainRest] using hsc
  case mainLaunch hp hm =>
    simpa [hm, mainRest] using hsc
  case mainFinish hp hm hcl =>
    simpa [hm, mainRest] using hsc
  case siteFail i u links e hp hu hpc he =>
    dsimp only
    rw [map_site_set_pc s.sites i u _ hu]
    exact hsc
  case siteLinks i u links hp hu hpc he =>
    dsimp only
    rw [map_site_set_pc s.sites i u _ hu]
    exact hsc
  case siteSpawn i u link rest hp hu hpc =>
    dsimp only
    rw [map_site_set_pc s.sites i u _ hu]
    exact hsc
  case siteLoopEnd i u hp hu hpc =>
    dsimp only
    rw [map_site_set_pc s.sites i u _ hu]
    exact hsc
  case siteDone i u hp hu hpc =>
    have hne := counter_ne_zero_of_site get cfg s inv i u hu (by simp [hpc])
    simp only [wgDone, hne, if_false]
    rw [map_site_set_pc s.sites i u _ hu]
    exact hsc
  case checkDone i c hp hu hpc =>
    have hne := counter_ne_zero_of_check get cfg s inv i c hu (by simp [hpc])
    simp only [wgDone, hne, if_false]
    exact hsc
  all_goals simpa using hsc

theorem linksOf_of_error (get : String → Outcome) (url : String) (links : Option (List String))
    (e : String) (h : ExtractLinks get url = (links, some e)) : linksOf get url = [] := by
  simp [linksOf, h]

theorem linksOf_of_ok (get : String → Outcome) (url : String) (links : Option (List String))
    (h : ExtractLinks get url = (links, none)) : linksOf get url = links.getD [] := by
  simp [linksOf, h]

theorem step_pending (get : String → Outcome) (cfg : List (String × String)) (s s' : State)
    (inv : Inv get cfg s) (h : Step get s s') : pending get s' = pending get s := by
  cases h
  case mainSpawn name url rest hp hm =>
    simp only [pending, hm, mainRest, expectedMessages, siteMessages, List.flatMap_cons, List.map_append, List.map_cons,
      List.map_nil, List.sum_append, List.sum_cons, List.sum_nil, pendingSite]
    simp only [← Multiset.coe_add, add_zero]
    abel
  case mainLaunch hp hm =>
    simp [pending, hm, mainRest, expectedMessages]
  case mainFinish hp hm hcl =>
    simp [pending, hm, mainRest, expectedMessages]
  case siteFail i u links e hp hu hpc he =>
    obtain ⟨r, h1, h2⟩ := sum_map_set (fun u => (pendingSite get u : Multiset String)) s.sites i u
      { u with pc := .exit } hu
    simp only [pending]
    rw [h1, h2]
    simp [pendingSite, hpc, linksOf_of_error get u.url links e he, linkMessages]
  case siteLinks i u links hp hu hpc he =>
    obtain ⟨r, h1, h2⟩ := sum_map_set (fun u => (pendingSite get u : Multiset String)) s.sites i u
      { u with pc := .spawn (links.getD []) } hu
    simp only [pending]
    rw [h1, h2]
    simp [pendingSite, hpc, linksOf_of_ok get u.url links he]
  case siteSpawn i u link rest hp hu hpc =>
    obtain ⟨r, h1, h2⟩ := sum_map_set (fun u => (pendingSite get u : Multiset String)) s.sites i u
      { u with pc := .spawn rest } hu
    simp only [pending]
    rw [h1, h2]
    simp only [pendingSite, hpc, linkMessages, List.flatMap_cons, List.map_append, List.map_cons,
      List.map_nil, List.sum_append, List.sum_cons, List.sum_nil, pendingCheck]
    simp only [← Multiset.coe_add, add_zero]
    abel
  case siteLoopEnd i u hp hu hpc =>
    obtain ⟨r, h1, h2⟩ := sum_map_set (fun u => (pendingSite get u : Multiset String)) s.sites i u
      { u with pc := .exit } hu
    simp only [pending]
    rw [h1, h2]
    simp [pendingSite, hpc, linkMessages]
  case siteDone i u hp hu hpc =>
    have hne := counter_ne_zero_of_site get cfg s inv i u hu (by simp [hpc])
    obtain ⟨r, h1, h2⟩ := sum_map_set (fun u => (pendingSite get u : Multiset String)) s.sites i u
      { u with pc := .done } hu
    simp only [wgDone, hne, if_false, pending]
    rw [h1, h2]
    simp [pendingSite, hpc]
  case checkGet i c hp hu hpc =>
    obtain ⟨r, h1, h2⟩ := sum_map_set (fun c => (pendingCheck get c : Multiset String)) s.checks i c
      { c with pc := .send (IsReachable get c.url).2 } hu
    simp only [pending]
    rw [h1, h2]
    simp [pendingCheck, hpc]
  case checkSend i c msg rest hp hu hpc hcl hm =>
    obtain ⟨r, h1, h2⟩ := sum_map_set (fun c => (pendingCheck get c : Multiset String)) s.checks i c
      { c with pc := .send rest } hu
    simp only [pending]
    rw [h1, h2]
    simp only [pendingCheck, hpc]
    rw [show msg :: rest = [msg] ++ rest from rfl]
    simp only [← Multiset.coe_add]
    abel
  case checkDone i c hp hu hpc =>
    have hne := counter_ne_zero_of_check get cfg s inv i c hu (by simp [hpc])
    obtain ⟨r, h1, h2⟩ := sum_map_set (fun c => (pendingCheck get c : Multiset String)) s.checks i c
      { c with pc := .done } hu
    simp only [wgDone, hne, if_false, pending]
    rw [h1, h2]
    simp [pendingCheck, hpc]
  all_goals rfl

theorem spawnedBy_set_pc (checks : List CheckUnit) (i : Nat) (c : CheckUnit) (pc : CheckPc)
    (hu : checks[i]? = some c) (j : Nat) :
    spawnedBy (checks.set i { c with pc := pc }) j = spawnedBy checks j := by
  unfold spawnedBy
  rw [map_check_set_pc checks i c pc hu]

theorem spawnedBy_append (checks : List CheckUnit) (i : Nat) (url : String) (pc : CheckPc) (j : Nat) :
    spawnedBy (checks ++ [{ parent := i, url := url, pc := pc }]) j
      = spawnedBy checks j ++ (if i = j then [url] else []) := by
  unfold spawnedBy
  by_cases h : i = j <;> simp [List.filter_cons, h]

theorem step_spawned (get : String → Outcome) (cfg : List (String × String)) (s s' : State)
    (inv : Inv get cfg s) (h : Step get s s') (j : Nat) :
    spawnedBy s'.checks j ++ (toSpawn get s'.sites[j]?).map ValidateUrl
      = (allLinks get s'.sites[j]?).map ValidateUrl := by
  have hj := inv.spawned j
  cases h
  case mainSpawn name url rest hp hm =>
    dsimp only
    rcases Nat.lt_trichotomy j s.sites.length with hlt | heq | hgt
    · rw [List.getElem?_append_left hlt]
      exact hj
    · subst heq
      simp [toSpawn, allLinks] at hj ⊢
      simp [hj]
    · have h1 : s.sites[j]? = none := List.getElem?_eq_none (by omega)
      have h2 : (s.sites ++ [{ name := name, url := url, pc := SitePc.extract }])[j]? = none :=
        List.getElem?_eq_none (by simp; omega)
      rw [h2]
      rw [h1] at hj
      exact hj
  case siteFail i u links e hp hu hpc he =>
    dsimp only
    rcases getElem?_set_cases s.sites i j u { u with pc := .exit } hu with ⟨hji, h⟩ | ⟨hji, h⟩
    · subst hji
      rw [h]
      rw [hu] at hj
      simpa [toSpawn, allLinks, hpc, linksOf_of_error get u.url links e he] using hj
    · rw [h]
      exact hj
  case siteLinks i u links hp hu hpc he =>
    dsimp only
    rcases getElem?_set_cases s.sites i j u { u with pc := .spawn (links.getD []) } hu
      with ⟨hji, h⟩ | ⟨hji, h⟩
    · subst hji
      rw [h]
      rw [hu] at hj
      simpa [toSpawn, allLinks, hpc, linksOf_of_ok get u.url links he] using hj
    · rw [h]
      exact hj
  case siteSpawn i u link rest hp hu hpc =>
    dsimp only
    rw [spawnedBy_append]
    rcases getElem?_set_cases s.sites i j u { u with pc := .spawn rest } hu with ⟨hji, h⟩ | ⟨hji, h⟩
    · subst hji
      rw [h]
      rw [hu] at hj
      simpa [toSpawn, allLinks, hpc] using hj
    · rw [h]
      simpa [Ne.symm hji] using hj
  case siteLoopEnd i u hp hu hpc =>
    dsimp only
    rcases getElem?_set_cases s.sites i j u { u with pc := .exit } hu with ⟨hji, h⟩ | ⟨hji, h⟩
    · subst hji
      rw [h]
      rw [hu] at hj
      simpa [toSpawn, allLinks, hpc] using hj
    · rw [h]
      exact hj
  case siteDone i u hp hu hpc =>
    have hne := counter_ne_zero_of_site get cfg s inv i u hu (by simp [hpc])
    simp only [wgDone, hne, if_false]
    rcases getElem?_set_cases s.sites i j u { u with pc := .done } hu with ⟨hji, h⟩ | ⟨hji, h⟩
    · subst hji
      rw [h]
      rw [hu] at hj
      simpa [toSpawn, allLinks, hpc] using hj
    · rw [h]
      exact hj
  case checkGet i c hp hu hpc =>
    dsimp only
    rw [spawnedBy_set_pc s.checks i c _ hu]
    exact hj
  case checkSend i c msg rest hp hu hpc hcl hm =>
    dsimp only
    rw [spawnedBy_set_pc s.checks i c _ hu]
    exact hj
  case checkDone i c hp hu hpc =>
    have hne := counter_ne_zero_of_check get cfg s inv i c hu (by simp [hpc])
    simp only [wgDone, hne, if_false]
    rw [spawnedBy_set_pc s.checks i c _ hu]
    exact hj
  all_goals exact hj

theorem Inv_step (get : String → Outcome) (cfg : List (String × String)) (s s' : State)
    (inv : Inv get cfg s) (h : Step get s s') : Inv get cfg s' := by
  obtain ⟨h1, h2, h3, h4⟩ := step_control get cfg s s' inv h
  exact
    { notPanicked := step_notPanicked get cfg s s' inv h
      counter_eq := step_counter_eq get cfg s s' inv h
      waiter_idle := h1
      woken_zero := h2
      closed_iff := h3
      finished_closed := h4
      sites_cfg := step_sites_cfg get cfg s s' inv h
      messages := (step_pending get cfg s s' inv h).trans inv.messages
      spawned := step_spawned get cfg s s' inv h }

theorem Inv_exec (get : String → Outcome) (cfg : List (String × String)) :
    ∀ (acts : List Action) (s s' : State), Inv get cfg s → exec get s acts = some s' →
      Inv get cfg s'
  | [], s, s', inv, h => by
    simp [exec] at h
    subst h
    exact inv
  | a :: as, s, s', inv, h => by
    simp only [exec] at h
    split at h
    · simp at h
    · rename_i s1 hs1
      exact Inv_exec get cfg as s1 s' (Inv_step get cfg s s1 inv (Step_of_step get s s1 a hs1)) h

theorem Inv_of_reachable (get : String → Outcome) (cfg : List (String × String)) (s : State)
    (h : Reachable get cfg s) : Inv get cfg s := by
  obtain ⟨acts, hacts⟩ := h
  exact Inv_exec get cfg acts (init cfg) s (Inv_init get cfg) hacts

theorem step_weight_lt (get : String → Outcome) (cfg : List (String × String)) (s s' : State)
    (inv : Inv get cfg s) (h : Step get s s') : weight get s' < weight get s := by
  cases h
  case mainSpawn name url rest hp hm =>
    simp [weight, hm, wMain, wSite]; omega
  case mainLaunch hp hm =>
    have hw : s.waiter = .idle := inv.waiter_idle.mpr ⟨_, hm⟩
    simp [weight, hm, hw, wMain, wWaiter]
  case mainFinish hp hm hcl =>
    simp [weight, hm, wMain]
  case waiterWake hp hw h0 =>
    simp [weight, hw, wWaiter]
  case waiterPanic hp hw hcl =>
    simp [weight, hp]
  case waiterClose hp hw hcl =>
    simp [weight, hw, wWaiter]
  case siteFail i u links e hp hu hpc he =>
    obtain ⟨r, h1, h2⟩ := sum_map_set (wSite get) s.sites i u { u with pc := .exit } hu
    simp only [weight]
    rw [h1, h2]
    simp [wSite, hpc]; omega
  case siteLinks i u links hp hu hpc he =>
    obtain ⟨r, h1, h2⟩ := sum_map_set (wSite get) s.sites i u { u with pc := .spawn (links.getD []) } hu
    simp only [weight]
    rw [h1, h2]
    simp [wSite, hpc, linksOf_of_ok get u.url links he]
  case siteSpawn i u link rest hp hu hpc =>
    obtain ⟨r, h1, h2⟩ := sum_map_set (wSite get) s.sites i u { u with pc := .spawn rest } hu
    simp only [weight]
    rw [h1, h2]
    simp [wSite, hpc, wLinks, wCheck]; omega
  case siteLoopEnd i u hp hu hpc =>
    obtain ⟨r, h1, h2⟩ := sum_map_set (wSite get) s.sites i u { u with pc := .exit } hu
    simp only [weight]
    rw [h1, h2]
    simp [wSite, hpc, wLinks]
  case siteDone i u hp hu hpc =>
    have hne := counter_ne_zero_of_site get cfg s inv i u hu (by simp [hpc])
    obtain ⟨r, h1, h2⟩ := sum_map_set (wSite get) s.sites i u { u with pc := .done } hu
    simp only [wgDone, hne, if_false, weight]
    rw [h1, h2]
    simp [wSite, hpc]
  case checkGet i c hp hu hpc =>
    obtain ⟨r, h1, h2⟩ := sum_map_set (wCheck get) s.checks i c
      { c with pc := .send (IsReachable get c.url).2 } hu
    simp only [weight]
    rw [h1, h2]
    simp [wCheck, hpc, wCheckStart]
  case checkPanic i c msg rest hp hu hpc hcl =>
    simp [weight, hp]
  case checkSend i c msg rest hp hu hpc hcl hm =>
    obtain ⟨r, h1, h2⟩ := sum_map_set (wCheck get) s.checks i c { c with pc := .send rest } hu
    simp only [weight]
    rw [h1, h2]
    simp [wCheck, hpc]
  case checkDone i c hp hu hpc =>
    have hne := counter_ne_zero_of_check get cfg s inv i c hu (by simp [hpc])
    obtain ⟨r, h1, h2⟩ := sum_map_set (wCheck get) s.checks i c { c with pc := .done } hu
    simp only [wgDone, hne, if_false, weight]
    rw [h1, h2]
    simp [wCheck, hpc]

theorem stepSite_enabled (get : String → Outcome) (s : State) (i : Nat) (u : SiteUnit)
    (hu : s.sites[i]? = some u) (hpc : u.pc ≠ .done) : ∃ s', stepSite get s i = some s' := by
  simp only [stepSite, hu]
  cases hpc' : u.pc with
  | extract =>
    rcases he : ExtractLinks get u.url with ⟨links, _ | e⟩ <;> simp
  | spawn rest => cases rest <;> simp
  | exit => simp
  | done => exact absurd hpc' hpc

theorem stepCheck_enabled (get : String → Outcome) (s : State) (i : Nat) (c : CheckUnit)
    (hu : s.checks[i]? = some c) (hpc : c.pc ≠ .done) (hm : s.main = .draining) :
    ∃ s', stepCheck get s i = some s' := by
  simp only [stepCheck, hu]
  cases hpc' : c.pc with
  | start => simp
  | send msgs =>
    cases msgs with
    | nil => simp
    | cons m r =>
      by_cases hcl : s.closed = true <;> simp [hcl, hm]
  | done => exact absurd hpc' hpc

theorem progress (get : String → Outcome) (cfg : List (String × String)) (s : State)
    (inv : Inv get cfg s) (hfin : s.main ≠ .finished) : ∃ a s', step get s a = some s' := by
  have hp := inv.notPanicked
  cases hm : s.main with
  | finished => exact absurd hm hfin
  | spawning rest =>
    refine ⟨.main, ?_⟩
    cases rest with
    | nil => simp [step, hp, stepMain, hm]
    | cons x rest => simp [step, hp, stepMain, hm]
  | draining =>
    by_cases hcl : s.closed = true
    · exact ⟨.main, by simp [step, hp, stepMain, hm, hcl]⟩
    · have hidle : s.waiter ≠ .idle := fun hw => by
        obtain ⟨rest, hr⟩ := inv.waiter_idle.mp hw
        simp [hm] at hr
      have hdone : s.waiter ≠ .done := fun hw => hcl (inv.closed_iff.mpr hw)
      cases hw : s.waiter with
      | idle => exact absurd hw hidle
      | done => exact absurd hw hdone
      | woken => exact ⟨.waiter, by simp [step, hp, stepWaiter, hw, hcl]⟩
      | waiting =>
        by_cases h0 : s.counter = 0
        · exact ⟨.waiter, by simp [step, hp, stepWaiter, hw, h0]⟩
        · have hact : 0 < active s := by
            have := inv.counter_eq
            omega
          by_cases hs : 0 < (s.sites.map activeSite).sum
          · obtain ⟨i, u, hu, hpos⟩ := exists_pos_of_sum_pos activeSite s.sites hs
            have hpc : u.pc ≠ .done := fun hd => by simp [activeSite, hd] at hpos
            obtain ⟨s', hs'⟩ := stepSite_enabled get s i u hu hpc
            exact ⟨.site i, s', by simp [step, hp, hs']⟩
          · have hc : 0 < (s.checks.map activeCheck).sum := by
              simp only [active] at hact
              omega
            obtain ⟨i, c, hu, hpos⟩ := exists_pos_of_sum_pos activeCheck s.checks hc
            have hpc : c.pc ≠ .done := fun hd => by simp [activeCheck, hd] at hpos
            obtain ⟨s', hs'⟩ := stepCheck_enabled get s i c hu hpc hm
            exact ⟨.check i, s', by simp [step, hp, hs']⟩

theorem completes_aux (get : String → Outcome) (cfg : List (String × String)) :
    ∀ (n : Nat) (s : State), weight get s ≤ n → Inv get cfg s →
      ∃ acts s', exec get s acts = some s' ∧ s'.main = .finished
  | 0, s, hn, inv => by
    by_cases hfin : s.main = .finished
    · exact ⟨[], s, rfl, hfin⟩
    · obtain ⟨a, s1, hs1⟩ := progress get cfg s inv hfin
      have := step_weight_lt get cfg s s1 inv (Step_of_step get s s1 a hs1)
      omega
  | n + 1, s, hn, inv => by
    by_cases hfin : s.main = .finished
    · exact ⟨[], s, rfl, hfin⟩
    · obtain ⟨a, s1, hs1⟩ := progress get cfg s inv hfin
      have hstep := Step_of_step get s s1 a hs1
      have hlt := step_weight_lt get cfg s s1 inv hstep
      obtain ⟨acts, s', hex, hf⟩ :=
        completes_aux get cfg n s1 (by omega) (Inv_step get cfg s s1 inv hstep)
      exact ⟨a :: acts, s', by simp [exec, hs1, hex], hf⟩

theorem exec_weight_le (get : String → Outcome) (cfg : List (String × String)) :
    ∀ (acts : List Action) (s s' : State), Inv get cfg s → exec get s acts = some s' →
      acts.length + weight get s' ≤ weight get s
  | [], s, s', _, h => by
    simp [exec] at h
    subst h
    simp
  | a :: as, s, s', inv, h => by
    simp only [exec] at h
    split at h
    · simp at h
    · rename_i s1 hs1
      have hstep := Step_of_step get s s1 a hs1
      have hlt := step_weight_lt get cfg s s1 inv hstep
      have := exec_weight_le get cfg as s1 s' (Inv_step get cfg s s1 inv hstep) h
      simp only [List.length_cons]
      omega


theorem sum_map_eq_zero {α : Type} (f : α → Nat) :
    ∀ (l : List α), (l.map f).sum = 0 → ∀ x ∈ l, f x = 0
  | [], _, x, hx => by simp at hx
  | a :: l, h, x, hx => by
    simp only [List.map_cons, List.sum_cons] at h
    rcases List.mem_cons.mp hx with rfl | hx'
    · omega
    · exact sum_map_eq_zero f l (by omega) x hx'

theorem sum_map_zero {α M : Type} [AddCommMonoid M] (f : α → M) :
    ∀ (l : List α), (∀ x ∈ l, f x = 0) → (l.map f).sum = 0
  | [], _ => by simp
  | a :: l, h => by
    simp only [List.map_cons, List.sum_cons]
    rw [h a (List.mem_cons_self a l), sum_map_zero f l (fun x hx => h x (List.mem_cons_of_mem a hx))]
    simp

theorem all_done_of_counter_zero (get : String → Outcome) (cfg : List (String × String))
    (s : State) (inv : Inv get cfg s) (h0 : s.counter = 0) :
    (∀ u ∈ s.sites, u.pc = .done) ∧ (∀ c ∈ s.checks, c.pc = .done) := by
  have hc := inv.counter_eq
  simp only [active] at hc
  constructor
  · intro u hu
    have := sum_map_eq_zero activeSite s.sites (by omega) u hu
    cases hpc : u.pc <;> simp [activeSite, hpc] at this ⊢
  · intro c hcm
    have := sum_map_eq_zero activeCheck s.checks (by omega) c hcm
    cases hpc : c.pc <;> simp [activeCheck, hpc] at this ⊢

theorem closed_facts (get : String → Outcome) (cfg : List (String × String))
    (s : State) (inv : Inv get cfg s) (hcl : s.closed = true) :
    mainRest s.main = [] ∧ (∀ u ∈ s.sites, u.pc = .done) ∧ (∀ c ∈ s.checks, c.pc = .done) ∧
      (s.stream : Multiset String) = (expectedMessages get cfg : Multiset String) := by
  have hw := inv.closed_iff.mp hcl
  have h0 := inv.woken_zero (Or.inr hw)
  obtain ⟨hs, hc⟩ := all_done_of_counter_zero get cfg s inv h0
  have hmain : mainRest s.main = [] := by
    cases hm : s.main with
    | spawning rest =>
      have := inv.waiter_idle.mpr ⟨rest, hm⟩
      rw [hw] at this
      exact absurd this (by decide)
    | draining => rfl
    | finished => rfl
  refine ⟨hmain, hs, hc, ?_⟩
  have hmsg := inv.messages
  have h1 : (s.checks.map (fun c => (pendingCheck get c : Multiset String))).sum = 0 :=
    sum_map_zero _ s.checks (fun c hcm => by simp [pendingCheck, hc c hcm])
  have h2 : (s.sites.map (fun u => (pendingSite get u : Multiset String))).sum = 0 :=
    sum_map_zero _ s.sites (fun u hu => by simp [pendingSite, hs u hu])
  simp only [pending, h1, h2, hmain, expectedMessages, List.flatMap_nil, Multiset.coe_nil,
    add_zero] at hmsg
  simpa [expectedMessages] using hmsg

theorem no_child_of_spawnedBy_nil (checks : List CheckUnit) (i : Nat)
    (h : spawnedBy checks i = []) : ∀ c ∈ checks, c.parent ≠ i := by
  intro c hc hpar
  have hmem : c.url ∈ spawnedBy checks i := by
    unfold spawnedBy
    simp only [List.mem_map, List.mem_filter, decide_eq_true_eq]
    exact ⟨(c.parent, c.url), ⟨⟨c, hc, rfl⟩, hpar⟩, rfl⟩
  rw [h] at hmem
  exact absurd hmem (List.not_mem_nil _)

theorem no_child_of_no_links (get : String → Outcome) (cfg : List (String × String))
    (s : State) (inv : Inv get cfg s) (i : Nat) (u : SiteUnit) (hu : s.sites[i]? = some u)
    (hl : linksOf get u.url = []) : ∀ c ∈ s.checks, c.parent ≠ i := by
  apply no_child_of_spawnedBy_nil
  have h := inv.spawned i
  rw [hu] at h
  simp only [allLinks, hl, List.map_nil, List.append_eq_nil] at h
  exact h.1

theorem spawnedBy_of_done (get : String → Outcome) (cfg : List (String × String))
    (s : State) (inv : Inv get cfg s) (i : Nat) (u : SiteUnit) (hu : s.sites[i]? = some u)
    (hpc : u.pc = .done) : spawnedBy s.checks i = (linksOf get u.url).map ValidateUrl := by
  have h := inv.spawned i
  rw [hu] at h
  simpa [toSpawn, allLinks, hpc] using h

theorem completes (get : String → Outcome) (cfg : List (String × String)) (s : State)
    (inv : Inv get cfg s) : ∃ acts s', exec get s acts = some s' ∧ s'.main = .finished :=
  completes_aux get cfg (weight get s) s (Nat.le_refl _) inv

theorem ExtractLinks_of_ok (get : String → Outcome) (url : String) (anchors : List Anchor)
    (h : get (ValidateUrl url) = .response 200 (.ok anchors)) :
    ExtractLinks get url = (some (anchors.filterMap (fun a => a.href)), none) := by
  simp [ExtractLinks, h, StatusOK, foldl_collectHref]

theorem linksOf_of_fail (get : String → Outcome) (url : String)
    (h : (ExtractLinks get url).2 ≠ none) : linksOf get url = [] := by
  rcases he : ExtractLinks get url with ⟨links, _ | e⟩
  · rw [he] at h
    exact absurd rfl h
  · exact linksOf_of_error get url links e he

theorem IsReachable_transport (get : String → Outcome) (u e : String)
    (h : get u = .transportError e) : IsReachable get u = (false, [u ++ " is not reachable "]) := by
  simp [IsReachable, h]

theorem IsReachable_ok (get : String → Outcome) (u : String) (body : Except String (List Anchor))
    (h : get u = .response 200 body) : IsReachable get u = (true, [u ++ " is reachable."]) := by
  simp [IsReachable, h, StatusOK]

theorem IsReachable_status (get : String → Outcome) (u : String) (status : Nat)
    (body : Except String (List Anchor)) (h : get u = .response status body) (hs : status ≠ 200) :
    IsReachable get u = (false, [u ++ " is not reachable."]) := by
  simp [IsReachable, h, StatusOK, hs]

theorem IsReachable_length (get : String → Outcome) (u : String) :
    (IsReachable get u).2.length = 1 := by
  unfold IsReachable
  split
  · rfl
  · split <;> rfl

theorem linkMessages_length (get : String → Outcome) (links : List String) :
    (linkMessages get links).length = links.length := by
  induction links with
  | nil => rfl
  | cons l ls ih =>
    simp only [linkMessages, List.flatMap_cons, List.length_append, List.length_cons] at ih ⊢
    rw [ih, IsReachable_length]
    omega

/-! ## The claims on the sequential functions -/

/-- C2: for every URL `u` and every answer of the GET on `u`, `IsReachable` sends
exactly one message and returns a boolean: on a transport error it returns
false and sends `u ++ " is not reachable "`; on status 200 it returns true and
sends `u ++ " is reachable."`; on any other status it returns false and sends
`u ++ " is not reachable."`.  So it returns true exactly when the GET succeeded
with status 200 (status 500 gives false), and the message starts with `u`
itself, whatever `ValidateUrl` would make of it. -/
theorem IsReachable_spec (get : String → Outcome) (u : String) :
    (IsReachable get u).2.length = 1 ∧
    (∀ e, get u = .transportError e →
      IsReachable get u = (false, [u ++ " is not reachable "])) ∧
    (∀ body, get u = .response 200 body →
      IsReachable get u = (true, [u ++ " is reachable."])) ∧
    (∀ status body, get u = .response status body → status ≠ 200 →
      IsReachable get u = (false, [u ++ " is not reachable."])) ∧
    ((IsReachable get u).1 = true ↔ ∃ body, get u = .response 200 body) ∧
    (∀ body, get u = .response 500 body → (IsReachable get u).1 = false) := by
  refine ⟨IsReachable_length get u, fun e h => IsReachable_transport get u e h,
    fun body h => IsReachable_ok get u body h,
    fun status body h hs => IsReachable_status get u status body h hs, ?_, ?_⟩
  · cases h : get u with
    | transportError e => simp [IsReachable_transport get u e h]
    | response status body =>
      by_cases hs : status = 200
      · subst hs
        simp [IsReachable_ok get u body h]
      · simp [IsReachable_status get u status body h hs, hs]
  · intro body h
    rw [IsReachable_status get u 500 body h (by decide)]

/-- C2, at an instance: a URL without scheme that answers 500 is reported
unreachable, with the URL as given. -/
theorem IsReachable_spec_witness :
    IsReachable (fun _ => Outcome.response 500 (.ok [])) "hostb.test"
      = (false, ["hostb.test is not reachable."]) :=
  (IsReachable_spec (fun _ => Outcome.response 500 (.ok [])) "hostb.test").2.2.2.1 500 (.ok [])
    rfl (by decide)

/-- C3: `ValidateUrl` is a total function and, for every string `s`, the result
starts with "http://" or "https://"; if `s` already starts with one of them the
result is `s`, and otherwise it is `"https://" ++ s`. -/
theorem ValidateUrl_spec (s : String) :
    (HasPrefix (ValidateUrl s) "http://" = true ∨ HasPrefix (ValidateUrl s) "https://" = true) ∧
    (HasPrefix s "http://" = true ∨ HasPrefix s "https://" = true → ValidateUrl s = s) ∧
    (¬ (HasPrefix s "http://" = true ∨ HasPrefix s "https://" = true) →
      ValidateUrl s = "https://" ++ s) := by
  refine ⟨ValidateUrl_scheme s, ValidateUrl_eq_self s, fun h => ?_⟩
  apply ValidateUrl_eq_https s
  · cases h1 : HasPrefix s "http://"
    · rfl
    · exact absurd (Or.inl h1) h
  · cases h2 : HasPrefix s "https://"
    · rfl
    · exact absurd (Or.inr h2) h

/-- C3, at instances: a path gets the scheme prepended, a URL with a scheme is
kept. -/
theorem ValidateUrl_spec_witness :
    ValidateUrl "/relative" = "https://" ++ "/relative" ∧
    ValidateUrl "http://hosta.test" = "http://hosta.test" :=
  ⟨(ValidateUrl_spec "/relative").2.2 (by decide),
   (ValidateUrl_spec "http://hosta.test").2.1 (by decide)⟩

/-- C4: `ValidateUrl` is idempotent: `ValidateUrl (ValidateUrl x) = ValidateUrl x`
for every string `x`. -/
theorem ValidateUrl_idempotent (x : String) : ValidateUrl (ValidateUrl x) = ValidateUrl x :=
  ValidateUrl_eq_self (ValidateUrl x) (ValidateUrl_scheme x)

/-- C6: `ExtractLinks` normalizes its argument with `ValidateUrl` and issues the
GET on the normalized URL (its result depends on the transport at that URL
only); it returns an error exactly when that GET fails at transport level, or
answers with a status other than 200, or the body fails to parse.  On a status
other than 200 the error text is the normalized URL followed by
" url is not reachable.\n", whatever the body is (the status is checked before
any parsing), and whenever an error is returned the link list is `nil`. -/
theorem ExtractLinks_error_spec (get : String → Outcome) (url : String) :
    (∀ get', get' (ValidateUrl url) = get (ValidateUrl url) →
      ExtractLinks get' url = ExtractLinks get url) ∧
    ((ExtractLinks get url).2 ≠ none ↔
      ((∃ e, get (ValidateUrl url) = .transportError e) ∨
       (∃ status body, get (ValidateUrl url) = .response status body ∧ status ≠ 200) ∨
       (∃ status e, get (ValidateUrl url) = .response status (.error e)))) ∧
    (∀ status body, get (ValidateUrl url) = .response status body → status ≠ 200 →
      ExtractLinks get url = (none, some (ValidateUrl url ++ " url is not reachable.\n"))) ∧
    (∀ e, get (ValidateUrl url) = .transportError e → ExtractLinks get url = (none, some e)) ∧
    (∀ e, get (ValidateUrl url) = .response 200 (.error e) →
      ExtractLinks get url = (none, some e)) ∧
    ((ExtractLinks get url).2 ≠ none → (ExtractLinks get url).1 = none) := by
  refine ⟨fun get' h => by simp [ExtractLinks, h], ?_, ?_, ?_, ?_, ?_⟩
  · cases h : get (ValidateUrl url) with
    | transportError e => simp [ExtractLinks, h]
    | response status body =>
      by_cases hs : status = 200
      · subst hs
        cases body with
        | error e => simp [ExtractLinks, h, StatusOK]
        | ok anchors => simp [ExtractLinks, h, StatusOK]
      · simp [ExtractLinks, h, StatusOK, hs]
  · intro status body h hs
    simp [ExtractLinks, h, StatusOK, hs]
  · intro e h
    simp [ExtractLinks, h]
  · intro e h
    simp [ExtractLinks, h, StatusOK]
  · cases h : get (ValidateUrl url) with
    | transportError e => simp [ExtractLinks, h]
    | response status body =>
      by_cases hs : status = 200
      · subst hs
        cases body with
        | error e => simp [ExtractLinks, h, StatusOK]
        | ok anchors => simp [ExtractLinks, h, StatusOK]
      · simp [ExtractLinks, h, StatusOK, hs]

/-- C6, at an instance: a page that answers 404 with a body that would not even
parse gives the error of the status check, with the normalized URL. -/
theorem ExtractLinks_error_spec_witness :
    ExtractLinks (fun _ => Outcome.response 404 (.error "EOF")) "down.test"
      = (none, some "https://down.test url is not reachable.\n") :=
  (ExtractLinks_error_spec (fun _ => Outcome.response 404 (.error "EOF")) "down.test").2.2.1
    404 (.error "EOF") rfl (by decide)

/-- C10: the classification can be read back from the message alone: for every
URL and every answer, `IsReachable` sends one message `m`, it returns true
exactly when `m` ends with " is reachable.", the message of a transport failure
ends with a space and that of a status other than 200 with a period, and any
call of `IsReachable` (any transport, any URL) that sends the same message has
an answer of the same kind. -/
theorem message_determines_kind (get : String → Outcome) (u : String) :
    ∃ m, (IsReachable get u).2 = [m] ∧
      ((IsReachable get u).1 = true ↔ HasSuffix m " is reachable." = true) ∧
      (kindOf (get u) = .transportFailure → lastChar m = some ' ') ∧
      (kindOf (get u) = .badStatus → lastChar m = some '.') ∧
      (∀ get' u', (IsReachable get' u').2 = [m] → kindOf (get' u') = kindOf (get u)) := by
  cases h : get u with
  | transportError e =>
    refine ⟨u ++ " is not reachable ", by simp [IsReachable, h], ?_, ?_, ?_, ?_⟩
    · simp [IsReachable, h, not_hasSuffix_transport]
    · intro _; exact lastChar_transport u
    · simp [kindOf]
    · intro get' u' hm
      cases h' : get' u' with
      | transportError e' => rfl
      | response status body =>
        by_cases hs : status = 200
        · subst hs
          rw [IsReachable_ok get' u' body h'] at hm
          have h1 := lastChar_reachable u'
          have h2 := lastChar_transport u
          simp only [List.cons.injEq, and_true] at hm
          rw [hm, h2] at h1
          exact absurd h1 (by decide)
        · rw [IsReachable_status get' u' status body h' hs] at hm
          have h1 := lastChar_badStatus u'
          have h2 := lastChar_transport u
          simp only [List.cons.injEq, and_true] at hm
          rw [hm, h2] at h1
          exact absurd h1 (by decide)
  | response status body =>
    by_cases hs : status = 200
    · subst hs
      refine ⟨u ++ " is reachable.", by simp [IsReachable, h, StatusOK], ?_, ?_, ?_, ?_⟩
      · simp [IsReachable, h, StatusOK, hasSuffix_reachable]
      · simp [kindOf, StatusOK]
      · simp [kindOf, StatusOK]
      · intro get' u' hm
        cases h' : get' u' with
        | transportError e' =>
          rw [IsReachable_transport get' u' e' h'] at hm
          have h1 := lastChar_transport u'
          have h2 := lastChar_reachable u
          simp only [List.cons.injEq, and_true] at hm
          rw [hm, h2] at h1
          exact absurd h1 (by decide)
        | response status' body' =>
          by_cases hs' : status' = 200
          · subst hs'
            rfl
          · rw [IsReachable_status get' u' status' body' h' hs'] at hm
            have h1 := not_hasSuffix_badStatus u'
            have h2 := hasSuffix_reachable u
            simp only [List.cons.injEq, and_true] at hm
            rw [hm, h2] at h1
            exact absurd h1 (by decide)
    · refine ⟨u ++ " is not reachable.", by simp [IsReachable, h, StatusOK, hs], ?_, ?_, ?_, ?_⟩
      · simp [IsReachable, h, StatusOK, hs, not_hasSuffix_badStatus]
      · simp [kindOf, StatusOK, hs]
      · intro _; exact lastChar_badStatus u
      · intro get' u' hm
        cases h' : get' u' with
        | transportError e' =>
          rw [IsReachable_transport get' u' e' h'] at hm
          have h1 := lastChar_transport u'
          have h2 := lastChar_badStatus u
          simp only [List.cons.injEq, and_true] at hm
          rw [hm, h2] at h1
          exact absurd h1 (by decide)
        | response status' body' =>
          by_cases hs' : status' = 200
          · subst hs'
            rw [IsReachable_ok get' u' body' h'] at hm
            have h1 := hasSuffix_reachable u'
            have h2 := not_hasSuffix_badStatus u
            simp only [List.cons.injEq, and_true] at hm
            rw [hm, h2] at h1
            exact absurd h1 (by decide)
          · simp [kindOf, StatusOK, hs, hs']

/-! ## The claims on the coordinator -/

/-- C1: for every transport `get`, every configuration `cfg` and every state `s`
a run reaches: if `main` has returned in `s`, the multiset of the messages put
on the result stream is the multiset of the expected messages, that is, for
every site whose `ExtractLinks` succeeds and every link it returns (with
repetitions), what `IsReachable` sends for `ValidateUrl(link)`; before that the
stream holds a part of them; the run can
always be completed from `s`, and no run has more steps than the weight of the
initial state; once `main` has returned the site goroutines are those of the
configuration and each has launched exactly one check per link, in order; and a
site whose page yields the links `links` contributes `links.length` messages. -/
theorem main_messages (get : String → Outcome) (cfg : List (String × String))
    (acts : List Action) (s : State) (hrun : exec get (init cfg) acts = some s) :
    (s.main = .finished →
      (s.stream : Multiset String) = (expectedMessages get cfg : Multiset String)) ∧
    (s.stream : Multiset String) ≤ (expectedMessages get cfg : Multiset String) ∧
    (∃ acts' s', exec get s acts' = some s' ∧ s'.main = .finished) ∧
    acts.length ≤ weight get (init cfg) ∧
    (s.main = .finished →
      s.sites.map (fun u => (u.name, u.url)) = cfg ∧
      ∀ i u, s.sites[i]? = some u →
        spawnedBy s.checks i = (linksOf get u.url).map ValidateUrl) ∧
    (∀ url links, ExtractLinks get url = (some links, none) →
      siteMessages get url = links.flatMap (fun link => (IsReachable get (ValidateUrl link)).2) ∧
      (siteMessages get url).length = links.length) := by
  have inv := Inv_of_reachable get cfg s ⟨acts, hrun⟩
  refine ⟨fun hfin => ?_, ?_, completes get cfg s inv, ?_, fun hfin => ?_, fun url links he => ?_⟩
  · exact (closed_facts get cfg s inv (inv.finished_closed hfin)).2.2.2
  · rw [← inv.messages]
    exact le_trans (le_trans (Multiset.le_add_right _ _) (Multiset.le_add_right _ _))
      (Multiset.le_add_right _ _)
  · have := exec_weight_le get cfg acts (init cfg) s (Inv_init get cfg) hrun
    omega
  · obtain ⟨hrest, hdone, -, -⟩ := closed_facts get cfg s inv (inv.finished_closed hfin)
    have hsc := inv.sites_cfg
    rw [hrest, List.append_nil] at hsc
    refine ⟨hsc, fun i u hu => ?_⟩
    exact spawnedBy_of_done get cfg s inv i u hu (hdone u (List.getElem?_mem hu))
  · have hl : linksOf get url = links := by
      simp [linksOf_of_ok get url (some links) he]
    simp only [siteMessages, hl, linkMessages_length]
    exact ⟨rfl, trivial⟩

/-- C1, at an instance: a run on a site whose page has five links, all of them
reachable, puts exactly five messages on the stream, the expected ones. -/
theorem main_messages_witness :
    ∃ s, exec fiveGet (init fiveCfg) fiveSchedule = some s ∧ s.main = .finished ∧
      s.stream.length = 5 ∧
      (s.stream : Multiset String) = (expectedMessages fiveGet fiveCfg : Multiset String) :=
  ⟨_, rfl, rfl, rfl, (main_messages fiveGet fiveCfg fiveSchedule _ rfl).1 rfl⟩

/-- C5: when the GET of the normalized URL answers 200 with a body that parses
to a document with the anchors `anchors` (in document order), `ExtractLinks`
returns, without error, the list of the `href` values that exist, in the same
order, unchanged and with duplicates kept.  For a document without anchors the
result is the empty list and, in every state of every run, no check has been
launched by a site goroutine for that URL. -/
theorem ExtractLinks_success (get : String → Outcome) (url : String) (anchors : List Anchor)
    (h : get (ValidateUrl url) = .response 200 (.ok anchors)) :
    ExtractLinks get url = (some (anchors.filterMap (fun a => a.href)), none) ∧
    (anchors = [] →
      ExtractLinks get url = (some [], none) ∧
      ∀ cfg acts s, exec get (init cfg) acts = some s →
        ∀ i u, s.sites[i]? = some u → u.url = url → ∀ c ∈ s.checks, c.parent ≠ i) := by
  have hok := ExtractLinks_of_ok get url anchors h
  refine ⟨hok, fun h0 => ?_⟩
  subst h0
  refine ⟨hok, fun cfg acts s hrun i u hu hurl => ?_⟩
  have inv := Inv_of_reachable get cfg s ⟨acts, hrun⟩
  apply no_child_of_no_links get cfg s inv i u hu
  rw [hurl, linksOf_of_ok get url _ hok]
  rfl

/-- C5, at an instance: relative paths, `mailto:` and `javascript:` values and
duplicates are returned as they are, an anchor without `href` is dropped. -/
theorem ExtractLinks_success_witness :
    ExtractLinks
      (fun _ => Outcome.response 200 (.ok [⟨some "/a"⟩, ⟨none⟩, ⟨some "mailto:x@y.test"⟩,
        ⟨some "/a"⟩, ⟨some "javascript:void(0)"⟩])) "hosta.test"
      = (some ["/a", "mailto:x@y.test", "/a", "javascript:void(0)"], none) :=
  (ExtractLinks_success
    (fun _ => Outcome.response 200 (.ok [⟨some "/a"⟩, ⟨none⟩, ⟨some "mailto:x@y.test"⟩,
      ⟨some "/a"⟩, ⟨some "javascript:void(0)"⟩])) "hosta.test" _ rfl).1

/-- C7: a site whose extraction fails contributes no message: the expected
messages of a configuration with the failing site are those of the
configuration without it; in every state of a run no check has been launched
for it; the run can always be completed; and the messages of a completed run
with the failing site are, as a multiset, those of any completed run without
it. -/
theorem failing_site (get : String → Outcome) (cfg1 cfg2 : List (String × String))
    (name url : String) (hfail : (ExtractLinks get url).2 ≠ none) :
    siteMessages get url = [] ∧
    expectedMessages get (cfg1 ++ (name, url) :: cfg2) = expectedMessages get (cfg1 ++ cfg2) ∧
    (∀ acts s, exec get (init (cfg1 ++ (name, url) :: cfg2)) acts = some s →
      (∀ i u, s.sites[i]? = some u → u.url = url → ∀ c ∈ s.checks, c.parent ≠ i) ∧
      (∃ acts' s', exec get s acts' = some s' ∧ s'.main = .finished) ∧
      (s.main = .finished →
        ∀ acts0 s0, exec get (init (cfg1 ++ cfg2)) acts0 = some s0 → s0.main = .finished →
          (s.stream : Multiset String) = (s0.stream : Multiset String))) := by
  have hl := linksOf_of_fail get url hfail
  have hsite : siteMessages get url = [] := by simp [siteMessages, hl, linkMessages]
  have hexp : expectedMessages get (cfg1 ++ (name, url) :: cfg2)
      = expectedMessages get (cfg1 ++ cfg2) := by
    simp [expectedMessages, hsite]
  refine ⟨hsite, hexp, fun acts s hrun => ?_⟩
  have inv := Inv_of_reachable get _ s ⟨acts, hrun⟩
  refine ⟨fun i u hu hurl => ?_, completes get _ s inv, fun hfin acts0 s0 hrun0 hfin0 => ?_⟩
  · exact no_child_of_no_links get _ s inv i u hu (by rw [hurl]; exact hl)
  · have inv0 := Inv_of_reachable get _ s0 ⟨acts0, hrun0⟩
    rw [(closed_facts get _ s inv (inv.finished_closed hfin)).2.2.2,
      (closed_facts get _ s0 inv0 (inv0.finished_closed hfin0)).2.2.2, hexp]

/-- C7, at an instance: the page of the site "down" answers 404; the expected
messages with and without that site are the same. -/
theorem failing_site_witness :
    expectedMessages downGet ([("up", "up.test")] ++ ("down", "down.test") :: [])
      = expectedMessages downGet ([("up", "up.test")] ++ []) :=
  (failing_site downGet [("up", "up.test")] [] "down" "down.test" (by decide)).2.1

/-- C8: in the end-to-end scenario, whatever the order in which the two sites are
visited, the link "/relative" is normalized to "https:///relative", and a
completed run has put exactly two messages on the stream: the reachable message
for https://hostb.test and the transport-failure message for
https:///relative; every run can be completed. -/
theorem scenario_messages (cfg : List (String × String)) (acts : List Action) (s : State)
    (hcfg : cfg.Perm scenarioCfg) (hrun : exec scenarioGet (init cfg) acts = some s) :
    ValidateUrl "/relative" = "https:///relative" ∧
    IsReachable scenarioGet (ValidateUrl "hostb.test")
      = (true, ["https://hostb.test is reachable."]) ∧
    IsReachable scenarioGet (ValidateUrl "/relative")
      = (false, ["https:///relative is not reachable "]) ∧
    (s.main = .finished →
      s.stream.length = 2 ∧
      (s.stream : Multiset String)
        = (["https://hostb.test is reachable.", "https:///relative is not reachable "]
            : List String)) ∧
    (∃ acts' s', exec scenarioGet s acts' = some s' ∧ s'.main = .finished) := by
  have inv := Inv_of_reachable scenarioGet cfg s ⟨acts, hrun⟩
  refine ⟨by decide, by decide, by decide, fun hfin => ?_, completes scenarioGet cfg s inv⟩
  have hs := (closed_facts scenarioGet cfg s inv (inv.finished_closed hfin)).2.2.2
  have hperm : (expectedMessages scenarioGet cfg).Perm
      (expectedMessages scenarioGet scenarioCfg) :=
    List.Perm.flatMap_right _ hcfg
  have hval : expectedMessages scenarioGet scenarioCfg
      = ["https://hostb.test is reachable.", "https:///relative is not reachable "] := by
    decide
  rw [hval] at hperm
  have hs' : s.stream.Perm
      ["https://hostb.test is reachable.", "https:///relative is not reachable "] :=
    (Multiset.coe_eq_coe.mp hs).trans hperm
  exact ⟨hs'.length_eq, Multiset.coe_eq_coe.mpr hs'⟩

/-- C8, at an instance: one schedule of the scenario, from start to end. -/
theorem scenario_messages_witness :
    ∃ s, exec scenarioGet (init scenarioCfg) scenarioSchedule = some s ∧
      s.main = .finished ∧ s.stream.length = 2 ∧
      (s.stream : Multiset String)
        = (["https://hostb.test is reachable.", "https:///relative is not reachable "]
            : List String) :=
  ⟨_, rfl, rfl,
    ((scenario_messages scenarioCfg scenarioSchedule _ (List.Perm.refl _) rfl).2.2.2.1 rfl).1,
    ((scenario_messages scenarioCfg scenarioSchedule _ (List.Perm.refl _) rfl).2.2.2.1 rfl).2⟩

/-- C9: in every state of every run (the goroutines interleaved in any way) the
program has not panicked and the counter of the barrier is the number of
registered units of work that have not signalled completion: a site is
registered before it is launched (`wg.Add(1)` comes first in the step that
launches it, see `stepMain`), a link check is registered by its
parent site goroutine while that parent is still running (every check has a
parent, and a parent that has signalled completion has registered a check for
every one of its links), and a finished unit takes no further step.  So the
counter is not zero while a registered unit is unfinished or a site goroutine
has still a link check to launch; the goroutine that waits on the barrier
exists only once `main` has registered every site; and when the stream is
closed every unit has finished and every message of the run is on the
stream. -/
theorem barrier_invariant (get : String → Outcome) (cfg : List (String × String))
    (acts : List Action) (s : State) (hrun : exec get (init cfg) acts = some s) :
    s.panicked = false ∧
    s.counter = active s ∧
    (∀ i u, s.sites[i]? = some u → u.pc = .done → step get s (.site i) = none) ∧
    (∀ i c, s.checks[i]? = some c → c.pc = .done → step get s (.check i) = none) ∧
    (∀ c ∈ s.checks, ∃ u, s.sites[c.parent]? = some u) ∧
    (∀ i u, s.sites[i]? = some u → u.pc = .done →
      spawnedBy s.checks i = (linksOf get u.url).map ValidateUrl) ∧
    ((0 < active s ∨ ∃ u ∈ s.sites, toSpawn get (some u) ≠ []) → s.counter ≠ 0) ∧
    (s.waiter ≠ .idle → mainRest s.main = []) ∧
    (s.closed = true →
      (∀ u ∈ s.sites, u.pc = .done) ∧ (∀ c ∈ s.checks, c.pc = .done) ∧
      (s.stream : Multiset String) = (expectedMessages get cfg : Multiset String)) := by
  have inv := Inv_of_reachable get cfg s ⟨acts, hrun⟩
  have hkey : (0 < active s ∨ ∃ u ∈ s.sites, toSpawn get (some u) ≠ []) → s.counter ≠ 0 := by
    intro h
    rcases h with h | ⟨u, hu, hts⟩
    · have := inv.counter_eq
      omega
    · obtain ⟨i, hi, hget⟩ := List.getElem_of_mem hu
      have hu' : s.sites[i]? = some u := by
        rw [List.getElem?_eq_getElem hi, hget]
      apply counter_ne_zero_of_site get cfg s inv i u hu'
      intro hd
      simp [toSpawn, hd] at hts
  have hrest : s.waiter ≠ .idle → mainRest s.main = [] := by
    intro hw
    cases hm : s.main with
    | spawning rest => exact absurd (inv.waiter_idle.mpr ⟨rest, hm⟩) hw
    | draining => rfl
    | finished => rfl
  refine ⟨inv.notPanicked, inv.counter_eq, ?_, ?_, ?_, ?_, hkey, hrest, ?_⟩
  · intro i u hu hpc
    simp [step, inv.notPanicked, stepSite, hu, hpc]
  · intro i c hu hpc
    simp [step, inv.notPanicked, stepCheck, hu, hpc]
  · intro c hc
    cases hp : s.sites[c.parent]? with
    | some u => exact ⟨u, rfl⟩
    | none =>
      have h := inv.spawned c.parent
      rw [hp] at h
      simp only [toSpawn, allLinks, List.map_nil, List.append_nil] at h
      exact absurd rfl (no_child_of_spawnedBy_nil s.checks c.parent h c hc)
  · intro i u hu hpc
    exact spawnedBy_of_done get cfg s inv i u hu hpc
  · intro hcl
    exact (closed_facts get cfg s inv hcl).2

/-- C9, at instances of the end-to-end scenario.  After the first steps the site
"a" is in its loop with the link "/relative" still to visit, one check is
registered and the site "b" has not begun: the counter is 3, the number of
unfinished registered units, and it is not zero because a link check is yet to
be launched.  At the end of the full schedule the stream is closed, every unit
has finished and the stream holds the messages of the run. -/
theorem barrier_invariant_witness :
    (∃ s, exec scenarioGet (init scenarioCfg) scenarioPrefix = some s ∧
      (∃ u ∈ s.sites, toSpawn scenarioGet (some u) ≠ []) ∧
      s.counter = 3 ∧ s.counter = active s ∧ s.counter ≠ 0) ∧
    (∃ s, exec scenarioGet (init scenarioCfg) scenarioSchedule = some s ∧
      s.closed = true ∧ (∀ c ∈ s.checks, c.pc = .done) ∧
      (s.stream : Multiset String)
        = (expectedMessages scenarioGet scenarioCfg : Multiset String)) :=
  ⟨⟨_, rfl,
      ⟨⟨"a", "hosta.test", .spawn ["/relative"]⟩, by decide, by decide⟩,
      rfl,
      (barrier_invariant scenarioGet scenarioCfg scenarioPrefix _ rfl).2.1,
      (barrier_invariant scenarioGet scenarioCfg scenarioPrefix _ rfl).2.2.2.2.2.2.1
        (Or.inr ⟨⟨"a", "hosta.test", .spawn ["/relative"]⟩, by decide, by decide⟩)⟩,
   ⟨_, rfl, rfl,
      ((barrier_invariant scenarioGet scenarioCfg scenarioSchedule _ rfl).2.2.2.2.2.2.2.2 rfl).2.1,
      ((barrier_invariant scenarioGet scenarioCfg scenarioSchedule _ rfl).2.2.2.2.2.2.2.2 rfl).2.2⟩⟩

end LinksChecker
